import Mathlib

/-!
Verification of the metadata webpack loader (`lib/index.js`).

The loader parses a source file, visits every `ClassDeclaration`, looks for
the first decorator of the form `@Metadata(...)`, statically extracts its
first argument into a plain value, strips the decorator from the class,
validates the merged options and, on success, emits a
`<options.name>.component.json` artifact.

The embedding below mirrors the JavaScript source: JS runtime values are
`JSValue` (with `undefined` and `null` kept distinct), plain objects are
association lists with JS insertion/overwrite semantics, Babel AST nodes
are `Node`, and the loader's per-class visitor is `processClass`, threaded
over a file by `transformProgram`.  Exceptions thrown by the JS code
(`TypeError`s from reading a property of `null`/`undefined`, or from
passing a non-string to `path.resolve`) are modelled with `Except String`.
-/

/-- A JavaScript runtime value as produced by the loader's static
extraction: `undefined` and `null` are distinct, numbers are modelled as
integers (the literals exercised here; float-specific behaviour such as
`NaN` is out of scope), objects are ordered association lists. -/
inductive JSValue where
  | undef : JSValue
  | null : JSValue
  | bool (b : Bool) : JSValue
  | num (n : Int) : JSValue
  | str (s : String) : JSValue
  | arr (elems : List JSValue) : JSValue
  | obj (fields : List (String × JSValue)) : JSValue

/-- Property read `o[k]` on a plain object's field list: the first binding
of the key (association lists below never hold a duplicate key), or
`undefined` when the key is absent. -/
def jsGet : List (String × JSValue) → String → JSValue
  | [], _ => JSValue.undef
  | (k', v) :: rest, k => if k' == k then v else jsGet rest k

/-- Property write `o[k] = v` with JS object semantics: an existing key
keeps its position and gets the new value, a fresh key is appended. -/
def jsObjInsert : List (String × JSValue) → String → JSValue → List (String × JSValue)
  | [], k, v => [(k, v)]
  | (k', v') :: rest, k, v =>
    if k' == k then (k, v) :: rest
    else (k', v') :: jsObjInsert rest k v

/-- Object spread `{ ...base, ...v }`: spreading an object inserts its own
enumerable fields in order; spreading an array or a string inserts
index-keyed entries; spreading any primitive is a no-op. -/
def jsSpread (fields : List (String × JSValue)) : JSValue → List (String × JSValue)
  | JSValue.obj fs => fs.foldl (fun acc p => jsObjInsert acc p.1 p.2) fields
  | JSValue.arr xs =>
    (xs.enum).foldl (fun acc p => jsObjInsert acc (toString p.1) p.2) fields
  | JSValue.str s =>
    (s.toList.enum).foldl
      (fun acc p => jsObjInsert acc (toString p.1) (JSValue.str (String.singleton p.2))) fields
  | _ => fields

/-- JS truthiness of a value (`!v` is its negation). -/
def jsTruthy : JSValue → Bool
  | JSValue.undef => false
  | JSValue.null => false
  | JSValue.bool b => b
  | JSValue.num n => n != 0
  | JSValue.str s => s != ""
  | JSValue.arr _ => true
  | JSValue.obj _ => true

/-- String coercion as used by template interpolation. -/
def jsToString : JSValue → String
  | JSValue.undef => "undefined"
  | JSValue.null => "null"
  | JSValue.bool b => if b then "true" else "false"
  | JSValue.num n => toString n
  | JSValue.str s => s
  | JSValue.arr xs => String.intercalate "," (xs.map fun v => jsToStringShallow v)
  | JSValue.obj _ => "[object Object]"
where
  /-- one level of `Array.prototype.toString` element coercion -/
  jsToStringShallow : JSValue → String
  | JSValue.undef => ""
  | JSValue.null => ""
  | JSValue.bool b => if b then "true" else "false"
  | JSValue.num n => toString n
  | JSValue.str s => s
  | JSValue.arr _ => ""
  | JSValue.obj _ => "[object Object]"

/-- Member access `v.k`: throws a `TypeError` when the base is `null` or
`undefined`, yields `undefined` on other primitives (no boxed-primitive
properties are modelled), reads the field on an object. -/
def jsMember (v : JSValue) (k : String) : Except String JSValue :=
  match v with
  | JSValue.obj fs => Except.ok (jsGet fs k)
  | JSValue.undef => Except.error ("TypeError: Cannot read property " ++ k ++ " of undefined")
  | JSValue.null => Except.error ("TypeError: Cannot read property " ++ k ++ " of null")
  | _ => Except.ok JSValue.undef

/-- Node's `path.resolve` rejects non-string arguments with a `TypeError`. -/
def asPathString : JSValue → Except String String
  | JSValue.str s => Except.ok s
  | v => Except.error ("TypeError: Path must be a string. Received " ++ jsToString v)

/-- Boolean test that the first list is a prefix of the second, on character lists. -/
def charsHavePrefix : List Char → List Char → Bool
  | [], _ => true
  | _ :: _, [] => false
  | p :: ps, c :: cs => p == c && charsHavePrefix ps cs

/-- JS `s.startsWith(pre)`. -/
def strStartsWith (s pre : String) : Bool :=
  charsHavePrefix pre.data s.data

/-- JS `s.endsWith(suffix)` (used on Babel `type` strings). -/
def strEndsWith (s suffix : String) : Bool :=
  charsHavePrefix suffix.data.reverse s.data.reverse

/-- Models `path.resolve(base, p)` for the POSIX cases exercised by the
loader: an absolute second argument wins, otherwise it is joined to the
base; `.`/`..` segment normalisation is not modelled. -/
def pathResolve (base p : String) : String :=
  if strStartsWith p "/" then p else base ++ "/" ++ p

mutual
/-- A Babel AST expression node, restricted to the shapes relevant to the
loader.  Object-literal properties are modelled as identifier-keyed
(`prop.key.name`) pairs, matching the shapes the extractor reads. -/
inductive Node where
  | stringLit (v : String) : Node
  | numericLit (v : Int) : Node
  | booleanLit (v : Bool) : Node
  | nullLit : Node
  | templateLit : Node
  | objectExpr (props : PropList) : Node
  | arrayExpr (elems : NodeList) : Node
  | identifier (nm : String) : Node
  | callExpr (callee : Node) (args : NodeList) : Node
  | spreadElt (arg : Node) : Node
  | memberExpr : Node

/-- The property list of an object literal: each property contributes its
key's identifier name (`prop.key.name`) and its value node. -/
inductive PropList where
  | nil : PropList
  | cons (key : String) (val : Node) (rest : PropList) : PropList

/-- A list of expression nodes (array elements, call arguments). -/
inductive NodeList where
  | nil : NodeList
  | cons (hd : Node) (tl : NodeList) : NodeList
end

/-- Convert a `PropList` to an ordinary list of key/value pairs. -/
def PropList.toList : PropList → List (String × Node)
  | PropList.nil => []
  | PropList.cons k v ps => (k, v) :: ps.toList

/-- Convert a `NodeList` to an ordinary list of nodes. -/
def NodeList.toList : NodeList → List Node
  | NodeList.nil => []
  | NodeList.cons e es => e :: es.toList

/-- Build a `PropList` from an ordinary list (for concrete inputs). -/
def PropList.ofList : List (String × Node) → PropList
  | [] => PropList.nil
  | (k, v) :: ps => PropList.cons k v (PropList.ofList ps)

/-- Build a `NodeList` from an ordinary list (for concrete inputs). -/
def NodeList.ofList : List Node → NodeList
  | [] => NodeList.nil
  | e :: es => NodeList.cons e (NodeList.ofList es)

/-- JS `list[0]` on a node list: the head, or `undefined` (`none`). -/
def NodeList.head? : NodeList → Option Node
  | NodeList.nil => none
  | NodeList.cons e _ => some e

/-- The Babel `type` string of a node. -/
def Node.type : Node → String
  | Node.stringLit _ => "StringLiteral"
  | Node.numericLit _ => "NumericLiteral"
  | Node.booleanLit _ => "BooleanLiteral"
  | Node.nullLit => "NullLiteral"
  | Node.templateLit => "TemplateLiteral"
  | Node.objectExpr _ => "ObjectExpression"
  | Node.arrayExpr _ => "ArrayExpression"
  | Node.identifier _ => "Identifier"
  | Node.callExpr _ _ => "CallExpression"
  | Node.spreadElt _ => "SpreadElement"
  | Node.memberExpr => "MemberExpression"

/-- The node's `value` field.  Babel gives `StringLiteral`,
`NumericLiteral` and `BooleanLiteral` a `value`; every other node shape
here — including `NullLiteral` and `TemplateLiteral` — has no `value`
field, so reading it yields `undefined`. -/
def Node.value : Node → JSValue
  | Node.stringLit s => JSValue.str s
  | Node.numericLit n => JSValue.num n
  | Node.booleanLit b => JSValue.bool b
  | _ => JSValue.undef

/-- Accessor for `expr.callee.name`: the callee `name` property; `none` stands for
the JS `undefined` read when the node is not a call or its callee is not
an identifier. -/
def Node.calleeName : Node → Option String
  | Node.callExpr (Node.identifier nm) _ => some nm
  | _ => none

/-- Accessor for `expr.arguments` (empty for non-call nodes; a `CallExpression` always
carries its argument array). -/
def Node.callArgs : Node → NodeList
  | Node.callExpr _ args => args
  | _ => NodeList.nil

mutual
/-- The function `extractValue(node)` from `lib/index.js`: nodes whose `type` string
ends in `"Literal"` yield their `value` field (hence `undefined`, not
`null`, for value-less literal kinds such as template literals);
`ObjectExpression` reduces its properties into a fresh object via
`obj[prop.key.name] = extractValue(prop.value)`; `ArrayExpression` maps
`extractValue` over its elements; everything else yields `null`.  The
source tests `endsWith('Literal')` first, but no object/array node's type
string ends in `"Literal"`, so matching the two structured shapes first
is equivalent. -/
def extractValue : Node → JSValue
  | Node.objectExpr props => JSValue.obj (extractProps props [])
  | Node.arrayExpr elems => JSValue.arr (extractElems elems)
  | n => if strEndsWith (Node.type n) "Literal" then Node.value n else JSValue.null

/-- The `reduce` over an `ObjectExpression`'s properties, accumulating
`obj[prop.key.name] = extractValue(prop.value)` left to right. -/
def extractProps : PropList → List (String × JSValue) → List (String × JSValue)
  | PropList.nil, acc => acc
  | PropList.cons k v ps, acc => extractProps ps (jsObjInsert acc k (extractValue v))

/-- The `map` over an `ArrayExpression`'s elements. -/
def extractElems : NodeList → List JSValue
  | NodeList.nil => []
  | NodeList.cons e es => extractValue e :: extractElems es
end

/-- A decorator node attached to a class.  `ref` models JavaScript object
identity: the source removes the matched decorator with the reference
comparison `x !== decorator`, and distinct parsed nodes are distinct
objects, so each decorator node carries a distinct `ref`. -/
structure Decorator where
  ref : Nat
  expression : Node

/-- The predicate of `getMetadata`'s filter:
`d.expression.type === 'CallExpression' && d.expression.callee.name === 'Metadata'`. -/
def isMetadataDecorator (d : Decorator) : Bool :=
  d.expression.type == "CallExpression" && d.expression.calleeName == some "Metadata"

/-- A plain JS object, as built for the `options` record. -/
abbrev JSObj := List (String × JSValue)

/-- An artifact handed to `loader.emitFile`: its file name together with
the options record passed to `JSON.stringify` (the serialisation itself
is abstracted; the claims inspect the record's fields). -/
abbrev Artifact := String × JSObj

/-- The function `getMetadata(decorators)` from `lib/index.js`: take the first
decorator whose expression is a `Metadata(...)` call; return `null` when
there is none or when its argument list is empty
(`!d.expression.arguments[0]`); otherwise return the matched decorator
node together with the extracted first argument. -/
def getMetadata (decorators : List Decorator) : Option (Decorator × JSValue) :=
  match (decorators.filter isMetadataDecorator).head? with
  | none => none
  | some d =>
    match d.expression.callArgs.head? with
    | none => none
    | some options => some (d, extractValue options)

/-- The function `validateOptions(options, name, loader)`: the three checks in source
order — `!options.name`, `!options.thumbnail`, then
`fs.existsSync(path.resolve(options.env.context, options.thumbnail))` —
each failure returning `false` after emitting one error message (returned
here as the message list, modelling `loader.emitError`).  Reading
`options.env.context` and calling `path.resolve` can throw a `TypeError`
(non-object `env`, non-string path arguments), modelled by the
`Except.error` branch.  `fsExists` is the filesystem snapshot consulted
by `fs.existsSync`. -/
def validateOptions (fsExists : String → Bool) (options : JSObj) (name : String) :
    Except String (Bool × List String) := do
  if !(jsTruthy (jsGet options "name")) then
    return (false, ["name must be specified for " ++ name])
  if !(jsTruthy (jsGet options "thumbnail")) then
    return (false, ["thumbnail must be specified for " ++ name])
  let ctx ← jsMember (jsGet options "env") "context"
  let base ← asPathString ctx
  let thumb ← asPathString (jsGet options "thumbnail")
  let filePath := pathResolve base thumb
  if !(fsExists filePath) then
    return (false, ["Missing thumbnail (" ++ filePath ++ ") for " ++ name ++ ", does not exist."])
  return (true, [])

/-- The `options` object literal `{ name, ...args, env: { context } }`:
the class name under `name` first, the extracted fields spread over it
(an extracted `name` field overwrites the injected one), then `env`
assigned last. -/
def mkOptions (name : String) (args : JSValue) (context : String) : JSObj :=
  jsObjInsert (jsSpread [("name", JSValue.str name)] args) "env"
    (JSValue.obj [("context", JSValue.str context)])

/-- A `ClassDeclaration` node: `id` is the class's identifier (`none` for
an anonymous class, where `node.id` is `null`), `decorators` is the
optional decorator list (`none` when absent or deleted), and `body`
stands for every other attribute of the node, untouched by the loader. -/
structure ClassDecl where
  id : Option String
  decorators : Option (List Decorator)
  body : String

/-- The decorator-removal step:
`node.decorators = node.decorators.filter(x => x !== decorator)` followed
by `delete node.decorators` when the list became empty. -/
def stripClass (c : ClassDecl) (d : Decorator) : ClassDecl :=
  let remaining := (c.decorators.getD []).filter fun x => x.ref != d.ref
  { c with decorators := if remaining.isEmpty then none else some remaining }

/-- The `ClassDeclaration` visitor body: read `node.id.name` (throwing a
`TypeError` when `id` is `null`), locate the metadata decorator, strip it
unconditionally, build the options record, validate, and on success emit
one `<options.name>.component.json` artifact.  Returns the rewritten
class node together with the artifacts emitted via `emitFile` and the
messages emitted via `emitError`. -/
def processClass (fsExists : String → Bool) (context : String) (node : ClassDecl) :
    Except String (ClassDecl × List Artifact × List String) := do
  let name ←
    match node.id with
    | some nm => Except.ok nm
    | none => Except.error "TypeError: Cannot read property name of null"
  match getMetadata (node.decorators.getD []) with
  | none => return (node, [], [])
  | some (decorator, args) =>
    let node' := stripClass node decorator
    let options := mkOptions name args context
    match (← validateOptions fsExists options name) with
    | (false, errs) => return (node', [], errs)
    | (true, errs) =>
      return (node', [(jsToString (jsGet options "name") ++ ".component.json", options)], errs)

/-- A top-level item of the parsed file: a class declaration or any other
construct, which the traversal leaves untouched. -/
inductive TopLevel where
  | classDecl (c : ClassDecl) : TopLevel
  | other (code : String) : TopLevel

/-- The whole loader invocation on one parsed file: visit each class in
order with `processClass`, leave other items unchanged, concatenate the
emitted artifacts and error messages in order.  A `TypeError` thrown by a
visitor aborts the traversal and propagates out of the loader, so the
file produces no rewritten output at all. -/
def transformProgram (fsExists : String → Bool) (context : String) :
    List TopLevel → Except String (List TopLevel × List Artifact × List String)
  | [] => Except.ok ([], [], [])
  | TopLevel.other s :: rest => do
    let (items, arts, errs) ← transformProgram fsExists context rest
    return (TopLevel.other s :: items, arts, errs)
  | TopLevel.classDecl c :: rest => do
    let (c', arts, errs) ← processClass fsExists context c
    let (items, arts', errs') ← transformProgram fsExists context rest
    return (TopLevel.classDecl c' :: items, arts ++ arts', errs ++ errs')

/-- Number of decorators on a class that `getMetadata`'s filter matches. -/
def matchCount (c : ClassDecl) : Nat :=
  ((c.decorators.getD []).filter isMetadataDecorator).length

/-- Folding `jsObjInsert` over a list of bindings (the normal form of the
object-spread branch and of the extraction reduce). -/
def insertAll (acc : JSObj) (ps : List (String × JSValue)) : JSObj :=
  ps.foldl (fun a p => jsObjInsert a p.1 p.2) acc

/-- Key list produced by inserting keys left to right: the first
occurrence keeps its position, later duplicates are dropped. -/
def keysFirstOccur (ks : List String) : List String :=
  ks.foldl (fun acc k => if k ∈ acc then acc else acc ++ [k]) []

/-- Option-valued lookup: distinguishes an absent key from a key bound to
`undefined` (the spread operator copies `undefined`-valued bindings). -/
def jsLookup (o : JSObj) (k : String) : Option JSValue :=
  (o.find? (fun p => p.1 == k)).map Prod.snd

def decEmptyArgs : Decorator :=
  ⟨0, Node.callExpr (Node.identifier "Metadata") NodeList.nil⟩

def decFullArgs : Decorator :=
  ⟨1, Node.callExpr (Node.identifier "Metadata")
    (NodeList.ofList [Node.objectExpr (PropList.ofList
      [("thumbnail", Node.stringLit "card.png")])])⟩

def clsEmptyArgs : ClassDecl := ⟨some "Card", some [decEmptyArgs, decFullArgs], "classBody"⟩

/-- Rule 1 of the validator as the spec words it: the value under `name`
is a non-empty string.  Stated from the spec for comparison with
`validateOptions`, which tests JS truthiness instead. -/
def specNonEmptyString : JSValue → Bool
  | JSValue.str s => s != ""
  | _ => false

def optsTruthyNumName : JSObj :=
  [("name", JSValue.num 5), ("thumbnail", JSValue.str "t.png"),
   ("env", JSValue.obj [("context", JSValue.str "/ctx")])]

def optsNumThumb : JSObj :=
  [("name", JSValue.str "Card"), ("thumbnail", JSValue.num 5),
   ("env", JSValue.obj [("context", JSValue.str "/ctx")])]

def fsCtxOnly : String → Bool := fun p => p == "/ctx/t.png"

def optsGoodCard : JSObj :=
  [("name", JSValue.str "Card"), ("thumbnail", JSValue.str "t.png"),
   ("env", JSValue.obj [("context", JSValue.str "/ctx")])]

def decC4 : Decorator :=
  ⟨0, Node.callExpr (Node.identifier "Metadata")
    (NodeList.ofList [Node.objectExpr (PropList.ofList
      [("description", Node.stringLit "A card")])])⟩

def clsC4 : ClassDecl := ⟨some "Card", some [decC4], "classBody"⟩

def decC6a : Decorator :=
  ⟨0, Node.callExpr (Node.identifier "Metadata")
    (NodeList.ofList [Node.objectExpr (PropList.ofList
      [("name", Node.stringLit "PanelA"), ("thumbnail", Node.stringLit "t.png")])])⟩

def decC6b : Decorator :=
  ⟨1, Node.callExpr (Node.identifier "Metadata")
    (NodeList.ofList [Node.objectExpr (PropList.ofList
      [("name", Node.stringLit "PanelB"), ("thumbnail", Node.stringLit "t.png")])])⟩

def clsC6 : ClassDecl := ⟨some "Panel", some [decC6a, decC6b], "classBody"⟩

def decC1 : Decorator :=
  ⟨0, Node.callExpr (Node.identifier "Metadata")
    (NodeList.ofList [Node.objectExpr (PropList.ofList
      [("name", Node.stringLit "Sample"), ("thumbnail", Node.stringLit "t.png")])])⟩

def clsC1 : ClassDecl := ⟨some "SampleComponent", some [decC1], "classBody"⟩

def decC1w : Decorator :=
  ⟨0, Node.callExpr (Node.identifier "Metadata")
    (NodeList.ofList [Node.objectExpr (PropList.ofList
      [("thumbnail", Node.stringLit "t.png")])])⟩

def clsC1w : ClassDecl := ⟨some "Widget", some [decC1w], "classBody"⟩

def decC8a : Decorator :=
  ⟨0, Node.callExpr (Node.identifier "Metadata")
    (NodeList.ofList [Node.objectExpr (PropList.ofList
      [("name", Node.stringLit "A8"), ("thumbnail", Node.stringLit "t.png")])])⟩

def decC8b : Decorator :=
  ⟨1, Node.callExpr (Node.identifier "Metadata")
    (NodeList.ofList [Node.objectExpr (PropList.ofList
      [("name", Node.stringLit "B8"), ("thumbnail", Node.stringLit "t.png")])])⟩

def clsC8 : ClassDecl := ⟨some "Card8", some [decC8a, decC8b], "classBody"⟩

def clsC8mid : ClassDecl := ⟨some "Card8", some [decC8b], "classBody"⟩

def clsC8end : ClassDecl := ⟨some "Card8", none, "classBody"⟩

def artC8a : Artifact :=
  ("A8.component.json",
    mkOptions "Card8"
      (JSValue.obj [("name", JSValue.str "A8"), ("thumbnail", JSValue.str "t.png")]) "/ctx")

def artC8b : Artifact :=
  ("B8.component.json",
    mkOptions "Card8"
      (JSValue.obj [("name", JSValue.str "B8"), ("thumbnail", JSValue.str "t.png")]) "/ctx")

def clsC8w : ClassDecl :=
  ⟨some "Tile",
   some [⟨0, Node.callExpr (Node.identifier "Metadata")
     (NodeList.ofList [Node.objectExpr (PropList.ofList
       [("thumbnail", Node.stringLit "t.png")])])⟩],
   "classBody"⟩

def progC8wOut : List TopLevel :=
  [TopLevel.classDecl ⟨some "Tile", none, "classBody"⟩, TopLevel.other "export default 1;"]

/-! ## Lemmas and claim theorems -/

theorem jsSpread_obj (base : JSObj) (fs : List (String × JSValue)) :
    jsSpread base (JSValue.obj fs) = insertAll base fs := rfl

theorem jsGet_insert (o : JSObj) (k : String) (v : JSValue) (k' : String) :
    jsGet (jsObjInsert o k v) k' = if k' = k then v else jsGet o k' := by
  induction o with
  | nil =>
    by_cases h : k' = k
    · simp [jsObjInsert, jsGet, beq_iff_eq, h]
    · have h2 : ¬(k = k') := fun e => h e.symm
      simp [jsObjInsert, jsGet, beq_iff_eq, h, h2]
  | cons p rest ih =>
    obtain ⟨a, b⟩ := p
    by_cases hak : a = k
    · subst hak
      by_cases h : k' = a
      · simp [jsObjInsert, jsGet, beq_iff_eq, h]
      · have h2 : ¬(a = k') := fun e => h e.symm
        simp [jsObjInsert, jsGet, beq_iff_eq, h, h2]
    · by_cases hak' : a = k'
      · subst hak'
        simp [jsObjInsert, jsGet, beq_iff_eq, hak]
      · simp [jsObjInsert, jsGet, beq_iff_eq, hak, hak', ih]

theorem insertAll_cons (acc : JSObj) (p : String × JSValue) (ps : List (String × JSValue)) :
    insertAll acc (p :: ps) = insertAll (jsObjInsert acc p.1 p.2) ps := rfl

theorem jsGet_insertAll (ps : List (String × JSValue)) (acc : JSObj) (k : String) :
    jsGet (insertAll acc ps) k =
      ((ps.reverse.find? (fun p => p.1 == k)).map Prod.snd).getD (jsGet acc k) := by
  induction ps generalizing acc with
  | nil => simp [insertAll]
  | cons p ps ih =>
    rw [insertAll_cons, ih, List.reverse_cons, List.find?_append]
    cases hf : ps.reverse.find? (fun q => q.1 == k) with
    | some q => simp [hf]
    | none =>
      by_cases h : p.1 = k
      · simp [hf, List.find?, beq_iff_eq, h, jsGet_insert]
      · have h2 : (p.1 == k) = false := by simp [beq_iff_eq]; exact h
        have h3 : ¬(k = p.1) := fun e => h e.symm
        simp [hf, List.find?, h2, h3, jsGet_insert]

/-- Single-motive induction principle for `PropList` (the mutual recursor
needs motives for all three node types; the other two are trivialised). -/
theorem propListInduction {motive : PropList → Prop} (pl : PropList)
    (hnil : motive PropList.nil)
    (hcons : ∀ k v ps, motive ps → motive (PropList.cons k v ps)) : motive pl :=
  @PropList.rec (fun _ => True) motive (fun _ => True)
    (fun _ => trivial) (fun _ => trivial) (fun _ => trivial) trivial trivial
    (fun _ _ => trivial) (fun _ _ => trivial) (fun _ => trivial)
    (fun _ _ _ _ => trivial) (fun _ _ => trivial) trivial
    hnil (fun k v ps _ ih => hcons k v ps ih)
    trivial (fun _ _ _ _ => trivial)
    pl

/-- Single-motive induction principle for `NodeList`. -/
theorem nodeListInduction {motive : NodeList → Prop} (nl : NodeList)
    (hnil : motive NodeList.nil)
    (hcons : ∀ e es, motive es → motive (NodeList.cons e es)) : motive nl :=
  @NodeList.rec (fun _ => True) (fun _ => True) motive
    (fun _ => trivial) (fun _ => trivial) (fun _ => trivial) trivial trivial
    (fun _ _ => trivial) (fun _ _ => trivial) (fun _ => trivial)
    (fun _ _ _ _ => trivial) (fun _ _ => trivial) trivial
    trivial (fun _ _ _ _ _ => trivial)
    hnil (fun e es _ ih => hcons e es ih)
    nl

theorem extractProps_eq_insertAll (pl : PropList) :
    ∀ acc, extractProps pl acc =
      insertAll acc (pl.toList.map fun p => (p.1, extractValue p.2)) := by
  induction pl using propListInduction with
  | hnil => intro acc; rfl
  | hcons k v ps ih =>
    intro acc
    simp [extractProps, PropList.toList, insertAll_cons, ih]

theorem jsGet_extractProps (pl : PropList) (k : String) :
    jsGet (extractProps pl []) k =
      ((pl.toList.reverse.find? (fun p => p.1 == k)).map
        (fun p => extractValue p.2)).getD JSValue.undef := by
  rw [extractProps_eq_insertAll, jsGet_insertAll, ← List.map_reverse, List.find?_map]
  have hpred : ((fun p : String × JSValue => p.1 == k) ∘
      fun p : String × Node => (p.1, extractValue p.2)) =
      fun p : String × Node => p.1 == k := rfl
  rw [hpred]
  cases pl.toList.reverse.find? (fun p => p.1 == k) <;> simp [jsGet]

theorem extractElems_eq_map (nl : NodeList) :
    extractElems nl = nl.toList.map extractValue := by
  induction nl using nodeListInduction with
  | hnil => rfl
  | hcons e es ih => simp [extractElems, NodeList.toList, ih]

theorem keys_insert (o : JSObj) (k : String) (v : JSValue) :
    (jsObjInsert o k v).map Prod.fst =
      if k ∈ o.map Prod.fst then o.map Prod.fst else o.map Prod.fst ++ [k] := by
  induction o with
  | nil => simp [jsObjInsert]
  | cons p rest ih =>
    obtain ⟨a, b⟩ := p
    by_cases hak : a = k
    · simp [jsObjInsert, beq_iff_eq, hak]
    · have h2 : ¬(k = a) := fun e => hak e.symm
      simp [jsObjInsert, beq_iff_eq, hak, h2, ih]
      by_cases hm : k ∈ rest.map Prod.fst <;> simp [hm, h2]

theorem keys_nodup_insert (o : JSObj) (k : String) (v : JSValue)
    (h : (o.map Prod.fst).Nodup) : ((jsObjInsert o k v).map Prod.fst).Nodup := by
  rw [keys_insert]
  by_cases hm : k ∈ o.map Prod.fst
  · simpa [hm]
  · simpa [hm, List.nodup_append] using h

theorem keys_nodup_insertAll (ps : List (String × JSValue)) :
    ∀ acc : JSObj, (acc.map Prod.fst).Nodup → ((insertAll acc ps).map Prod.fst).Nodup := by
  induction ps with
  | nil => intro acc h; simpa [insertAll]
  | cons p ps ih =>
    intro acc h
    rw [insertAll_cons]
    exact ih _ (keys_nodup_insert _ _ _ h)

theorem find?_reverse_of_nodup (o : JSObj) (k : String)
    (h : (o.map Prod.fst).Nodup) :
    o.reverse.find? (fun p => p.1 == k) = o.find? (fun p => p.1 == k) := by
  induction o with
  | nil => rfl
  | cons p rest ih =>
    simp only [List.map_cons, List.nodup_cons] at h
    obtain ⟨hnot, hrest⟩ := h
    rw [List.reverse_cons, List.find?_append, ih hrest]
    by_cases hk : p.1 = k
    · cases hf : rest.find? (fun q => q.1 == k) with
      | none => simp [hf, List.find?, beq_iff_eq, hk]
      | some q =>
        have hq := List.find?_some hf
        have hqm := List.mem_of_find?_eq_some hf
        rw [beq_iff_eq] at hq
        exact absurd (by rw [hk, ← hq]; exact List.mem_map_of_mem Prod.fst hqm) hnot
    · have h2 : (p.1 == k) = false := by simp [beq_iff_eq]; exact hk
      cases hf : rest.find? (fun q => q.1 == k) with
      | none => simp [hf, List.find?, h2]
      | some q => simp [hf, List.find?, h2]

theorem keys_insertAll (ps : List (String × JSValue)) :
    ∀ acc : JSObj, (insertAll acc ps).map Prod.fst =
      ps.foldl (fun a p => if p.1 ∈ a then a else a ++ [p.1]) (acc.map Prod.fst) := by
  induction ps with
  | nil => intro acc; simp [insertAll]
  | cons p ps ih =>
    intro acc
    rw [insertAll_cons, ih, keys_insert, List.foldl_cons]

theorem keys_extractProps (pl : PropList) :
    (extractProps pl []).map Prod.fst = keysFirstOccur (pl.toList.map Prod.fst) := by
  rw [extractProps_eq_insertAll, keys_insertAll, keysFirstOccur, List.foldl_map, List.foldl_map]
  rfl

theorem keys_extractProps_nodup (pl : PropList) :
    ((extractProps pl []).map Prod.fst).Nodup := by
  rw [extractProps_eq_insertAll]
  exact keys_nodup_insertAll _ _ (by simp)

theorem jsGet_eq_lookup (o : JSObj) (k : String) :
    jsGet o k = (jsLookup o k).getD JSValue.undef := by
  induction o with
  | nil => rfl
  | cons p rest ih =>
    obtain ⟨a, b⟩ := p
    by_cases h : a = k
    · simp [jsGet, jsLookup, List.find?, beq_iff_eq, h]
    · have hb : (a == k) = false := by simp [beq_iff_eq]; exact h
      simp [jsGet, jsLookup, List.find?, hb, ih]

theorem jsLookup_insert (o : JSObj) (k : String) (v : JSValue) (k' : String) :
    jsLookup (jsObjInsert o k v) k' = if k' = k then some v else jsLookup o k' := by
  induction o with
  | nil =>
    by_cases h : k' = k
    · simp [jsObjInsert, jsLookup, List.find?, beq_iff_eq, h]
    · have h2 : ¬(k = k') := fun e => h e.symm
      have hb : (k == k') = false := by simp [beq_iff_eq]; exact h2
      simp [jsObjInsert, jsLookup, List.find?, beq_iff_eq, h, hb]
  | cons p rest ih =>
    obtain ⟨a, b⟩ := p
    by_cases hak : a = k
    · subst hak
      by_cases h : k' = a
      · simp [jsObjInsert, jsLookup, List.find?, beq_iff_eq, h]
      · have h2 : ¬(a = k') := fun e => h e.symm
        have hb : (a == k') = false := by simp [beq_iff_eq]; exact h2
        simp [jsObjInsert, jsLookup, List.find?, beq_iff_eq, h, hb]
    · by_cases hak' : a = k'
      · subst hak'
        simp [jsObjInsert, jsLookup, List.find?, beq_iff_eq, hak]
      · have h2 : ¬(a = k') := hak'
        simp only [jsObjInsert, beq_iff_eq]
        rw [if_neg hak]
        simp only [jsLookup, List.find?]
        have hb : (a == k') = false := by simp [beq_iff_eq]; exact h2
        simp only [hb]
        exact ih

theorem jsLookup_insertAll (ps : List (String × JSValue)) :
    ∀ (acc : JSObj) (k : String),
      jsLookup (insertAll acc ps) k =
        ((ps.reverse.find? (fun p => p.1 == k)).map Prod.snd).or (jsLookup acc k) := by
  induction ps with
  | nil => intro acc k; simp [insertAll]
  | cons p ps ih =>
    intro acc k
    rw [insertAll_cons, ih, List.reverse_cons, List.find?_append]
    cases hf : ps.reverse.find? (fun q => q.1 == k) with
    | some q => simp [hf]
    | none =>
      by_cases h : p.1 = k
      · have hb : (p.1 == k) = true := by simp [beq_iff_eq]; exact h
        have h2 : k = p.1 := h.symm
        simp [hf, List.find?, hb, jsLookup_insert, h2]
      · have hb : (p.1 == k) = false := by simp [beq_iff_eq]; exact h
        have h3 : ¬(k = p.1) := fun e => h e.symm
        simp [hf, List.find?, hb, jsLookup_insert, h3]

theorem jsLookup_extractProps (pl : PropList) (k : String) :
    jsLookup (extractProps pl []) k =
      (pl.toList.reverse.find? (fun p => p.1 == k)).map (fun p => extractValue p.2) := by
  rw [extractProps_eq_insertAll, jsLookup_insertAll, ← List.map_reverse, List.find?_map]
  have hpred : ((fun p : String × JSValue => p.1 == k) ∘
      fun p : String × Node => (p.1, extractValue p.2)) =
      fun p : String × Node => p.1 == k := rfl
  rw [hpred]
  cases pl.toList.reverse.find? (fun p => p.1 == k) <;> simp [jsLookup]

theorem jsGet_mkOptions_extract_name (nm ctx : String) (pl : PropList) :
    jsGet (mkOptions nm (extractValue (Node.objectExpr pl)) ctx) "name" =
      ((pl.toList.reverse.find? (fun p => p.1 == "name")).map
        (fun p => extractValue p.2)).getD (JSValue.str nm) := by
  have hfs : extractValue (Node.objectExpr pl) = JSValue.obj (extractProps pl []) := rfl
  rw [hfs]
  unfold mkOptions
  rw [jsGet_eq_lookup, jsLookup_insert, if_neg (by decide : ¬("name" = "env")),
    jsSpread_obj, jsLookup_insertAll,
    find?_reverse_of_nodup _ _ (keys_extractProps_nodup pl)]
  have : ((extractProps pl []).find? (fun p => p.1 == "name")).map Prod.snd =
      jsLookup (extractProps pl []) "name" := rfl
  rw [this, jsLookup_extractProps]
  have hl : jsLookup [("name", JSValue.str nm)] "name" = some (JSValue.str nm) := rfl
  cases pl.toList.reverse.find? (fun p => p.1 == "name") <;> simp [hl]

theorem stripClass_id (c : ClassDecl) (d : Decorator) : (stripClass c d).id = c.id := rfl

theorem stripClass_body (c : ClassDecl) (d : Decorator) : (stripClass c d).body = c.body := rfl

theorem stripClass_decorators_getD (c : ClassDecl) (d : Decorator) :
    (stripClass c d).decorators.getD [] =
      (c.decorators.getD []).filter fun x => x.ref != d.ref := by
  unfold stripClass
  cases hrem : (c.decorators.getD []).filter (fun x => x.ref != d.ref) with
  | nil => simp [hrem, List.isEmpty]
  | cons a l => simp [hrem, List.isEmpty]

theorem exceptBind_ok {ε α β : Type} (a : α) (f : α → Except ε β) :
    (Except.ok a >>= f) = f a := rfl

theorem exceptBind_error {ε α β : Type} (e : ε) (f : α → Except ε β) :
    ((Except.error e : Except ε α) >>= f) = Except.error e := rfl

theorem exceptMap_ok {ε α β : Type} (f : α → β) (a : α) :
    (f <$> (Except.ok a : Except ε α)) = Except.ok (f a) := rfl

theorem exceptMap_error {ε α β : Type} (f : α → β) (e : ε) :
    (f <$> (Except.error e : Except ε α)) = Except.error e := rfl

theorem exceptPure {ε α : Type} (a : α) : (pure a : Except ε α) = Except.ok a := rfl

theorem processClass_of_anon (fsExists : String → Bool) (context : String)
    (c : ClassDecl) (h : c.id = none) :
    processClass fsExists context c =
      Except.error "TypeError: Cannot read property name of null" := by
  simp [processClass, h, exceptBind_error]

theorem processClass_of_no_match (fsExists : String → Bool) (context : String)
    (c : ClassDecl) (nm : String) (hid : c.id = some nm)
    (h : getMetadata (c.decorators.getD []) = none) :
    processClass fsExists context c = Except.ok (c, [], []) := by
  simp [processClass, hid, h, exceptBind_ok, exceptPure]

theorem processClass_of_match (fsExists : String → Bool) (context : String)
    (c : ClassDecl) (nm : String) (d : Decorator) (args : JSValue)
    (hid : c.id = some nm)
    (h : getMetadata (c.decorators.getD []) = some (d, args)) :
    processClass fsExists context c =
      match validateOptions fsExists (mkOptions nm args context) nm with
      | Except.error e => Except.error e
      | Except.ok (false, errs) => Except.ok (stripClass c d, [], errs)
      | Except.ok (true, errs) =>
        Except.ok (stripClass c d,
          [(jsToString (jsGet (mkOptions nm args context) "name") ++ ".component.json",
            mkOptions nm args context)], errs) := by
  cases hv : validateOptions fsExists (mkOptions nm args context) nm with
  | error e => simp [processClass, hid, h, hv, exceptBind_ok, exceptBind_error]
  | ok r =>
    obtain ⟨b, errs⟩ := r
    cases b <;> simp [processClass, hid, h, hv, exceptBind_ok, exceptPure]

theorem transformProgram_cons_other (fsExists : String → Bool) (context : String)
    (s : String) (rest : List TopLevel) :
    transformProgram fsExists context (TopLevel.other s :: rest) =
      match transformProgram fsExists context rest with
      | Except.error e => Except.error e
      | Except.ok (items, arts, errs) =>
        Except.ok (TopLevel.other s :: items, arts, errs) := by
  cases hr : transformProgram fsExists context rest with
  | error e => simp [transformProgram, hr, exceptBind_error, exceptMap_error]
  | ok r =>
    obtain ⟨items, arts, errs⟩ := r
    simp [transformProgram, hr, exceptBind_ok, exceptMap_ok, exceptPure]

theorem transformProgram_cons_class_error (fsExists : String → Bool) (context : String)
    (c : ClassDecl) (rest : List TopLevel) (e : String)
    (h : processClass fsExists context c = Except.error e) :
    transformProgram fsExists context (TopLevel.classDecl c :: rest) = Except.error e := by
  simp [transformProgram, h, exceptBind_error, exceptMap_error]

theorem transformProgram_cons_class_ok (fsExists : String → Bool) (context : String)
    (c : ClassDecl) (rest : List TopLevel)
    (c' : ClassDecl) (arts : List Artifact) (errs : List String)
    (h : processClass fsExists context c = Except.ok (c', arts, errs)) :
    transformProgram fsExists context (TopLevel.classDecl c :: rest) =
      match transformProgram fsExists context rest with
      | Except.error e => Except.error e
      | Except.ok (items, arts', errs') =>
        Except.ok (TopLevel.classDecl c' :: items, arts ++ arts', errs ++ errs') := by
  cases hr : transformProgram fsExists context rest with
  | error e => simp [transformProgram, h, hr, exceptBind_ok, exceptBind_error, exceptMap_error]
  | ok r =>
    obtain ⟨items, arts', errs'⟩ := r
    simp [transformProgram, h, hr, exceptBind_ok, exceptMap_ok, exceptPure]

theorem getMetadata_of_no_match (ds : List Decorator)
    (h : ds.filter isMetadataDecorator = []) : getMetadata ds = none := by
  simp [getMetadata, h]

theorem getMetadata_of_head_arg (ds : List Decorator) (d : Decorator) (a : Node)
    (hhead : (ds.filter isMetadataDecorator).head? = some d)
    (harg : d.expression.callArgs.head? = some a) :
    getMetadata ds = some (d, extractValue a) := by
  simp [getMetadata, hhead, harg]

theorem getMetadata_inv (ds : List Decorator) (d : Decorator) (args : JSValue)
    (h : getMetadata ds = some (d, args)) :
    (ds.filter isMetadataDecorator).head? = some d ∧
    ∃ a, d.expression.callArgs.head? = some a ∧ args = extractValue a := by
  cases hh : (ds.filter isMetadataDecorator).head? with
  | none =>
    have hg : getMetadata ds = none := by simp [getMetadata, hh]
    rw [hg] at h; cases h
  | some d0 =>
    cases ha : d0.expression.callArgs.head? with
    | none =>
      have hg : getMetadata ds = none := by simp [getMetadata, hh, ha]
      rw [hg] at h; cases h
    | some a =>
      have hg : getMetadata ds = some (d0, extractValue a) := by simp [getMetadata, hh, ha]
      rw [hg] at h
      simp only [Option.some.injEq, Prod.mk.injEq] at h
      obtain ⟨h1, h2⟩ := h
      subst h1
      exact ⟨rfl, a, ha, h2.symm⟩

theorem matches_after_strip (ds : List Decorator) (d : Decorator)
    (hone : ds.filter isMetadataDecorator = [d]) :
    (ds.filter fun x => x.ref != d.ref).filter isMetadataDecorator = [] := by
  rw [List.filter_eq_nil_iff]
  intro x hx hmx
  have hx2 := List.mem_filter.mp hx
  have hmem : x ∈ ds.filter isMetadataDecorator := List.mem_filter.mpr ⟨hx2.1, hmx⟩
  rw [hone, List.mem_singleton] at hmem
  subst hmem
  simp at hx2

theorem processClass_ok_cases (fsExists : String → Bool) (context : String)
    (c c' : ClassDecl) (arts : List Artifact) (errs : List String)
    (hok : processClass fsExists context c = Except.ok (c', arts, errs)) :
    (∃ nm, c.id = some nm) ∧
    ((getMetadata (c.decorators.getD []) = none ∧ c' = c ∧ arts = [] ∧ errs = []) ∨
     (∃ d args, getMetadata (c.decorators.getD []) = some (d, args) ∧
        c' = stripClass c d ∧ arts.length ≤ 1)) := by
  cases hid : c.id with
  | none => rw [processClass_of_anon fsExists context c hid] at hok; cases hok
  | some nm =>
    refine ⟨⟨nm, rfl⟩, ?_⟩
    cases hm : getMetadata (c.decorators.getD []) with
    | none =>
      rw [processClass_of_no_match fsExists context c nm hid hm] at hok
      simp only [Except.ok.injEq, Prod.mk.injEq] at hok
      exact Or.inl ⟨rfl, hok.1.symm, hok.2.1.symm, hok.2.2.symm⟩
    | some r =>
      obtain ⟨d, args⟩ := r
      rw [processClass_of_match fsExists context c nm d args hid hm] at hok
      cases hv : validateOptions fsExists (mkOptions nm args context) nm with
      | error e => rw [hv] at hok; cases hok
      | ok r2 =>
        obtain ⟨b, errs2⟩ := r2
        rw [hv] at hok
        cases b with
        | false =>
          simp only [Except.ok.injEq, Prod.mk.injEq] at hok
          exact Or.inr ⟨d, args, rfl, hok.1.symm, by rw [← hok.2.1]; simp⟩
        | true =>
          simp only [Except.ok.injEq, Prod.mk.injEq] at hok
          exact Or.inr ⟨d, args, rfl, hok.1.symm, by rw [← hok.2.1]; simp⟩

/-- C2 (counterexample): the claim says every unrecognized argument shape —
template strings explicitly included — extracts to `null`.  But the type
string `"TemplateLiteral"` ends in `"Literal"`, so `extractValue` returns
the template-literal node's (absent) `value` field, i.e. JS `undefined`,
which is a different value from JS `null`. -/
theorem extractValue_templateLiteral_not_null :
    extractValue Node.templateLit = JSValue.undef ∧ JSValue.undef ≠ JSValue.null := by
  refine ⟨rfl, fun h => ?_⟩
  injection h

/-- C2 (amended): for every argument node whose type string does not end
in `"Literal"` and is neither an object literal nor an array literal
(identifiers, calls, spreads, member expressions), `extractValue` returns
`null` and never raises; the exception is a node whose type string ends in
`"Literal"` but carries no `value` field — e.g. a template literal — which
yields JS `undefined` instead of `null`. -/
theorem extractValue_unrecognized_null :
    (∀ n : Node, strEndsWith (Node.type n) "Literal" = false →
      Node.type n ≠ "ObjectExpression" → Node.type n ≠ "ArrayExpression" →
      extractValue n = JSValue.null) ∧
    extractValue Node.templateLit = JSValue.undef := by
  refine ⟨fun n h1 h2 h3 => ?_, rfl⟩
  cases n
  case stringLit v =>
    rw [show Node.type (Node.stringLit v) = "StringLiteral" from rfl] at h1
    exact absurd h1 (by decide)
  case numericLit v =>
    rw [show Node.type (Node.numericLit v) = "NumericLiteral" from rfl] at h1
    exact absurd h1 (by decide)
  case booleanLit v =>
    rw [show Node.type (Node.booleanLit v) = "BooleanLiteral" from rfl] at h1
    exact absurd h1 (by decide)
  case nullLit => exact absurd h1 (by decide)
  case templateLit => exact absurd h1 (by decide)
  case objectExpr pl => exact absurd rfl h2
  case arrayExpr nl => exact absurd rfl h3
  case identifier nm => rfl
  case callExpr callee args => rfl
  case spreadElt a => rfl
  case memberExpr => rfl

/-- C2 (amended, witness): the identifier node is an unrecognized shape
and extracts to `null`. -/
theorem extractValue_unrecognized_null_witness :
    strEndsWith (Node.type (Node.identifier "props")) "Literal" = false ∧
    Node.type (Node.identifier "props") ≠ "ObjectExpression" ∧
    Node.type (Node.identifier "props") ≠ "ArrayExpression" ∧
    extractValue (Node.identifier "props") = JSValue.null := by
  refine ⟨by decide, by decide, by decide, ?_⟩
  exact extractValue_unrecognized_null.1 (Node.identifier "props") (by decide) (by decide)
    (by decide)

/-- C5: an object-literal argument extracts to a mapping built by
iterating the properties in source order — lookup of any key yields the
recursively extracted value of the key's last occurrence, and the key
list keeps first-occurrence positions (JS insertion/overwrite
semantics) — while an array-literal argument extracts to the ordered
list of the recursively extracted elements, in source order. -/
theorem extractValue_object_array_semantics :
    (∀ pl : PropList, extractValue (Node.objectExpr pl) = JSValue.obj (extractProps pl [])) ∧
    (∀ (pl : PropList) (k : String),
      jsGet (extractProps pl []) k =
        ((pl.toList.reverse.find? (fun p => p.1 == k)).map
          (fun p => extractValue p.2)).getD JSValue.undef) ∧
    (∀ pl : PropList,
      (extractProps pl []).map Prod.fst = keysFirstOccur (pl.toList.map Prod.fst)) ∧
    (∀ nl : NodeList,
      extractValue (Node.arrayExpr nl) = JSValue.arr (nl.toList.map extractValue)) := by
  refine ⟨fun pl => rfl, jsGet_extractProps, keys_extractProps, fun nl => ?_⟩
  have h : extractValue (Node.arrayExpr nl) = JSValue.arr (extractElems nl) := rfl
  rw [h, extractElems_eq_map]

/-- C9: when the first Metadata-matching decorator of a class is a call
with an empty argument list, the locator signals absent — the decorator is
not removed, nothing is extracted or validated, no artifact and no error
is produced — and the locator does not fall through to a later matching
decorator that does carry an argument. -/
theorem empty_args_locator_absent (ds : List Decorator) (d : Decorator)
    (hhead : (ds.filter isMetadataDecorator).head? = some d)
    (hempty : d.expression.callArgs = NodeList.nil) :
    getMetadata ds = none ∧
    ∀ (fsExists : String → Bool) (context nm : String) (c : ClassDecl),
      c.id = some nm → c.decorators = some ds →
      processClass fsExists context c = Except.ok (c, [], []) := by
  have hg : getMetadata ds = none := by
    simp [getMetadata, hhead, hempty, NodeList.head?]
  refine ⟨hg, fun fsExists context nm c hid hds => ?_⟩
  exact processClass_of_no_match fsExists context c nm hid (by rw [hds]; exact hg)

/-- C9 (witness): a class whose first `Metadata()` decorator has no
argument, followed by a second `Metadata({...})` decorator with one:
the visitor leaves the class untouched and emits nothing. -/
theorem empty_args_locator_absent_witness :
    ([decEmptyArgs, decFullArgs].filter isMetadataDecorator).head? = some decEmptyArgs ∧
    decEmptyArgs.expression.callArgs = NodeList.nil ∧
    getMetadata [decEmptyArgs, decFullArgs] = none ∧
    processClass (fun _ => true) "/ctx" clsEmptyArgs = Except.ok (clsEmptyArgs, [], []) := by
  have h := empty_args_locator_absent [decEmptyArgs, decFullArgs] decEmptyArgs rfl rfl
  exact ⟨rfl, rfl, h.1, h.2 (fun _ => true) "/ctx" "Card" clsEmptyArgs rfl rfl⟩

/-- C10: the visitor reads `node.id.name` before looking at decorators, so
a class declaration with no identifier (`node.id` is `null`, as for an
anonymous default-exported class) makes the visitor throw a `TypeError`,
which aborts the traversal: the whole file produces no rewritten output,
even when that class carries no Metadata decorator at all. -/
theorem anonymous_class_throws (fsExists : String → Bool) (context : String)
    (c : ClassDecl) (hanon : c.id = none) :
    processClass fsExists context c =
      Except.error "TypeError: Cannot read property name of null" ∧
    ∀ rest : List TopLevel,
      transformProgram fsExists context (TopLevel.classDecl c :: rest) =
        Except.error "TypeError: Cannot read property name of null" := by
  have hp := processClass_of_anon fsExists context c hanon
  exact ⟨hp, fun rest => transformProgram_cons_class_error fsExists context c rest _ hp⟩

/-- C10 (witness): an anonymous class with no decorators at the head of a
file aborts the whole transform. -/
theorem anonymous_class_throws_witness :
    (ClassDecl.id ⟨none, none, "anonBody"⟩ = none) ∧
    transformProgram (fun _ => true) "/ctx"
        [TopLevel.classDecl ⟨none, none, "anonBody"⟩, TopLevel.other "const x = 1;"] =
      Except.error "TypeError: Cannot read property name of null" := by
  exact ⟨rfl, (anonymous_class_throws (fun _ => true) "/ctx" ⟨none, none, "anonBody"⟩ rfl).2
    [TopLevel.other "const x = 1;"]⟩

/-- C3 (counterexample): the validator's first rule is not "name is a
non-empty string" — a numeric `name` (not a string at all) is truthy and
passes all three checks — and validation is not throw-free: a truthy
non-string `thumbnail` reaches `path.resolve`, which throws a
`TypeError`. -/
theorem validateOptions_not_spec_rules :
    validateOptions fsCtxOnly optsTruthyNumName "Card" = Except.ok (true, []) ∧
    specNonEmptyString (jsGet optsTruthyNumName "name") = false ∧
    validateOptions fsCtxOnly optsNumThumb "Card" =
      Except.error "TypeError: Path must be a string. Received 5" := by
  exact ⟨rfl, rfl, rfl⟩

/-- C3 (amended): the validator checks three rules in source order —
`name` truthy, `thumbnail` truthy, resolved thumbnail path exists — with
the first failure winning and emitting exactly one message naming the
failing field (or resolved path) and the class; it does not throw when
the consulted fields are strings (a truthy non-string `thumbnail` makes
path resolution throw), and the failure messages are pairwise
distinct. -/
theorem validateOptions_ordered_rules (fsExists : String → Bool)
    (opts : JSObj) (cname ctx thumb : String) :
    (jsTruthy (jsGet opts "name") = false →
      validateOptions fsExists opts cname =
        Except.ok (false, ["name must be specified for " ++ cname])) ∧
    (jsTruthy (jsGet opts "name") = true →
      jsTruthy (jsGet opts "thumbnail") = false →
      validateOptions fsExists opts cname =
        Except.ok (false, ["thumbnail must be specified for " ++ cname])) ∧
    (jsTruthy (jsGet opts "name") = true →
      jsGet opts "thumbnail" = JSValue.str thumb → thumb ≠ "" →
      jsGet opts "env" = JSValue.obj [("context", JSValue.str ctx)] →
      validateOptions fsExists opts cname =
        (if fsExists (pathResolve ctx thumb) then Except.ok (true, [])
         else Except.ok (false,
           ["Missing thumbnail (" ++ pathResolve ctx thumb ++ ") for " ++ cname ++
             ", does not exist."]))) ∧
    ("name must be specified for " ++ cname) ≠
      ("thumbnail must be specified for " ++ cname) := by
  refine ⟨fun h1 => ?_, fun h1 h2 => ?_, fun h1 h2 h3 h4 => ?_, fun h => ?_⟩
  · simp [validateOptions, h1, exceptPure]
  · simp [validateOptions, h1, h2, exceptPure, exceptBind_ok]
  · have h2t : jsTruthy (JSValue.str thumb) = true := by simp [jsTruthy]; exact h3
    have h2t2 : jsTruthy (jsGet opts "thumbnail") = true := by rw [h2]; exact h2t
    have henvm : jsMember (jsGet opts "env") "context" = Except.ok (JSValue.str ctx) := by
      rw [h4]; rfl
    cases hfe : fsExists (pathResolve ctx thumb) <;>
      simp [validateOptions, h1, h2, h2t, h2t2, henvm, asPathString,
        exceptBind_ok, exceptPure, hfe]
  · have hlen := congrArg String.length h
    rw [String.length_append, String.length_append] at hlen
    rw [show ("name must be specified for ").length = 27 from rfl] at hlen
    rw [show ("thumbnail must be specified for ").length = 32 from rfl] at hlen
    omega

/-- C3 (amended, witness): the third rule applied to a well-formed record
whose thumbnail exists on the modelled filesystem. -/
theorem validateOptions_ordered_rules_witness :
    jsTruthy (jsGet optsGoodCard "name") = true ∧
    jsGet optsGoodCard "thumbnail" = JSValue.str "t.png" ∧
    ("t.png" ≠ "") ∧
    jsGet optsGoodCard "env" = JSValue.obj [("context", JSValue.str "/ctx")] ∧
    validateOptions fsCtxOnly optsGoodCard "Card" = Except.ok (true, []) := by
  refine ⟨rfl, rfl, by decide, rfl, ?_⟩
  have h := (validateOptions_ordered_rules fsCtxOnly optsGoodCard "Card" "/ctx" "t.png").2.2.1
    rfl rfl (by decide) rfl
  rw [h]
  rfl

theorem stripClass_decorators_ne_empty (c : ClassDecl) (d : Decorator) :
    (stripClass c d).decorators ≠ some [] := by
  unfold stripClass
  cases hrem : (c.decorators.getD []).filter (fun x => x.ref != d.ref) with
  | nil => simp [hrem, List.isEmpty]
  | cons a l => simp [hrem, List.isEmpty]

/-- C7: the rewrite only touches the decorator list — the class identifier
and every other attribute of the class node are unchanged, non-class items
of the tree are passed through untouched — and when removing the matched
decorator empties the list, the `decorators` attribute itself is deleted
(never left as an empty list). -/
theorem rewrite_frame_effect (fsExists : String → Bool) (context : String)
    (c c' : ClassDecl) (arts : List Artifact) (errs : List String)
    (hok : processClass fsExists context c = Except.ok (c', arts, errs)) :
    c'.id = c.id ∧ c'.body = c.body ∧
    (getMetadata (c.decorators.getD []) = none → c' = c) ∧
    (∀ d args, getMetadata (c.decorators.getD []) = some (d, args) →
      c'.decorators ≠ some [] ∧
      c'.decorators =
        (if ((c.decorators.getD []).filter fun x => x.ref != d.ref).isEmpty then none
         else some ((c.decorators.getD []).filter fun x => x.ref != d.ref))) ∧
    (∀ (s : String) (rest : List TopLevel),
      transformProgram fsExists context (TopLevel.other s :: rest) =
        match transformProgram fsExists context rest with
        | Except.error e => Except.error e
        | Except.ok (items, arts2, errs2) =>
          Except.ok (TopLevel.other s :: items, arts2, errs2)) := by
  obtain ⟨⟨nm, hid⟩, hcases⟩ := processClass_ok_cases fsExists context c c' arts errs hok
  cases hcases with
  | inl hl =>
    obtain ⟨hnone, hceq, _, _⟩ := hl
    subst hceq
    refine ⟨rfl, rfl, fun _ => rfl, fun d args hsome => ?_,
      fun s rest => transformProgram_cons_other fsExists context s rest⟩
    rw [hnone] at hsome; cases hsome
  | inr hr =>
    obtain ⟨d0, args0, hsome, hstrip, _⟩ := hr
    subst hstrip
    refine ⟨stripClass_id c d0, stripClass_body c d0, fun hnone => ?_,
      fun d args h => ?_, fun s rest => transformProgram_cons_other fsExists context s rest⟩
    · rw [hnone] at hsome; cases hsome
    · rw [hsome] at h
      simp only [Option.some.injEq, Prod.mk.injEq] at h
      obtain ⟨hd, _⟩ := h
      subst hd
      exact ⟨stripClass_decorators_ne_empty c d0, rfl⟩

/-- C7 (witness): validation fails (no thumbnail), yet the only decorator
is removed and — the list now being empty — the attribute is deleted. -/
theorem rewrite_frame_effect_witness :
    processClass fsCtxOnly "/ctx" clsC4 =
      Except.ok (⟨some "Card", none, "classBody"⟩, [],
        ["thumbnail must be specified for Card"]) ∧
    ClassDecl.decorators ⟨some "Card", none, "classBody"⟩ = none ∧
    ClassDecl.body ⟨some "Card", none, "classBody"⟩ = ClassDecl.body clsC4 := by
  refine ⟨rfl, ?_, ?_⟩
  · have h := rewrite_frame_effect fsCtxOnly "/ctx" clsC4 ⟨some "Card", none, "classBody"⟩
      [] ["thumbnail must be specified for Card"] rfl
    rw [(h.2.2.2.1 decC4 (extractValue (Node.objectExpr (PropList.ofList
      [("description", Node.stringLit "A card")]))) rfl).2]
    rfl
  · exact (rewrite_frame_effect fsCtxOnly "/ctx" clsC4 ⟨some "Card", none, "classBody"⟩
      [] ["thumbnail must be specified for Card"] rfl).2.1

/-- C4: once a Metadata decorator is matched on a class, it is removed
from the class's decorator list no matter how validation turns out (every
completed run of the visitor leaves no decorator with the matched node's
identity), and on validation failure the class yields no artifact, only
its error message, while the sibling items of the file are still processed
to completion. -/
theorem annotation_stripped_unconditionally (fsExists : String → Bool)
    (context nm : String) (c : ClassDecl) (d : Decorator) (args : JSValue)
    (hid : c.id = some nm)
    (hmatch : getMetadata (c.decorators.getD []) = some (d, args)) :
    (∀ c2 arts errs, processClass fsExists context c = Except.ok (c2, arts, errs) →
      ∀ x ∈ c2.decorators.getD [], x.ref ≠ d.ref) ∧
    (∀ errs, validateOptions fsExists (mkOptions nm args context) nm =
        Except.ok (false, errs) →
      processClass fsExists context c = Except.ok (stripClass c d, [], errs) ∧
      ∀ rest, transformProgram fsExists context (TopLevel.classDecl c :: rest) =
        match transformProgram fsExists context rest with
        | Except.error e => Except.error e
        | Except.ok (items, arts2, errs2) =>
          Except.ok (TopLevel.classDecl (stripClass c d) :: items, arts2, errs ++ errs2)) := by
  constructor
  · intro c2 arts errs hok x hx
    obtain ⟨_, hcases⟩ := processClass_ok_cases fsExists context c c2 arts errs hok
    cases hcases with
    | inl hl => rw [hmatch] at hl; cases hl.1
    | inr hr =>
      obtain ⟨d0, args0, hsome, hstrip, _⟩ := hr
      rw [hmatch] at hsome
      simp only [Option.some.injEq, Prod.mk.injEq] at hsome
      obtain ⟨hd, _⟩ := hsome
      subst hd
      subst hstrip
      rw [stripClass_decorators_getD] at hx
      have := (List.mem_filter.mp hx).2
      simpa using this
  · intro errs hval
    have hp : processClass fsExists context c = Except.ok (stripClass c d, [], errs) := by
      rw [processClass_of_match fsExists context c nm d args hid hmatch, hval]
    exact ⟨hp, fun rest => transformProgram_cons_class_ok fsExists context c rest _ _ _ hp⟩

/-- C4 (witness): a class whose only decorator is
`Metadata({description})` — validation fails on the missing thumbnail, the
decorator is still stripped, no artifact is emitted, and a sibling item
after it is still processed. -/
theorem annotation_stripped_unconditionally_witness :
    getMetadata (clsC4.decorators.getD []) =
      some (decC4, JSValue.obj [("description", JSValue.str "A card")]) ∧
    validateOptions fsCtxOnly
        (mkOptions "Card" (JSValue.obj [("description", JSValue.str "A card")]) "/ctx")
        "Card" = Except.ok (false, ["thumbnail must be specified for Card"]) ∧
    transformProgram fsCtxOnly "/ctx" [TopLevel.classDecl clsC4, TopLevel.other "tail();"] =
      Except.ok ([TopLevel.classDecl (stripClass clsC4 decC4), TopLevel.other "tail();"],
        [], ["thumbnail must be specified for Card"]) := by
  refine ⟨rfl, rfl, ?_⟩
  have h := annotation_stripped_unconditionally fsCtxOnly "/ctx" "Card" clsC4 decC4
    (JSValue.obj [("description", JSValue.str "A card")]) rfl rfl
  rw [(h.2 ["thumbnail must be specified for Card"] rfl).2 [TopLevel.other "tail();"]]
  rfl

/-- C6: on a class carrying two or more Metadata-matching decorators, any
completed run of the visitor emits at most one artifact, every matching
decorator other than the first (in source order) is still attached to the
rewritten class, and the only decorator that can have been removed is that
first match. -/
theorem first_match_only (fsExists : String → Bool) (context : String)
    (c c' : ClassDecl) (arts : List Artifact) (errs : List String)
    (hnodup : ((c.decorators.getD []).map Decorator.ref).Nodup)
    (hmany : 2 ≤ ((c.decorators.getD []).filter isMetadataDecorator).length)
    (hok : processClass fsExists context c = Except.ok (c', arts, errs)) :
    arts.length ≤ 1 ∧
    (∀ x ∈ (c.decorators.getD []).filter isMetadataDecorator,
      ((c.decorators.getD []).filter isMetadataDecorator).head? ≠ some x →
      x ∈ c'.decorators.getD []) ∧
    (∀ x ∈ c.decorators.getD [], x ∉ c'.decorators.getD [] →
      some x = ((c.decorators.getD []).filter isMetadataDecorator).head?) := by
  have hinj := List.inj_on_of_nodup_map hnodup
  obtain ⟨_, hcases⟩ := processClass_ok_cases fsExists context c c' arts errs hok
  cases hcases with
  | inl hl =>
    obtain ⟨_, hceq, hartnil, _⟩ := hl
    subst hceq
    refine ⟨by rw [hartnil]; exact Nat.zero_le 1, fun x hx _ => (List.mem_filter.mp hx).1,
      fun x hx hnx => absurd hx hnx⟩
  | inr hr =>
    obtain ⟨d0, args0, hsome, hstrip, hle⟩ := hr
    obtain ⟨hhead, _⟩ := getMetadata_inv _ _ _ hsome
    subst hstrip
    refine ⟨hle, fun x hx hne => ?_, fun x hx hnx => ?_⟩
    · rw [stripClass_decorators_getD]
      have hxmem := (List.mem_filter.mp hx).1
      have hd0 : d0 ∈ (c.decorators.getD []).filter isMetadataDecorator :=
        List.mem_of_mem_head? hhead
      have hxne : x ≠ d0 := fun he => hne (by rw [he]; exact hhead.symm ▸ hhead)
      have hrefne : x.ref ≠ d0.ref := fun he =>
        hxne (hinj hxmem (List.mem_filter.mp hd0).1 he)
      refine List.mem_filter.mpr ⟨hxmem, ?_⟩
      simpa using hrefne
    · rw [stripClass_decorators_getD] at hnx
      by_cases href : x.ref = d0.ref
      · have hd0mem : d0 ∈ (c.decorators.getD []).filter isMetadataDecorator :=
          List.mem_of_mem_head? hhead
        have : x = d0 := hinj hx (List.mem_filter.mp hd0mem).1 href
        rw [this]
        exact hhead.symm
      · exact absurd (List.mem_filter.mpr ⟨hx, by simpa using href⟩) hnx

/-- C6 (witness): a class with two qualifying decorators — the completed
run keeps the second decorator attached. -/
theorem first_match_only_witness :
    ((clsC6.decorators.getD []).map Decorator.ref).Nodup ∧
    2 ≤ ((clsC6.decorators.getD []).filter isMetadataDecorator).length ∧
    decC6b ∈ (stripClass clsC6 decC6a).decorators.getD [] := by
  have h := first_match_only fsCtxOnly "/ctx" clsC6 (stripClass clsC6 decC6a)
    [("PanelA.component.json",
      mkOptions "Panel"
        (JSValue.obj [("name", JSValue.str "PanelA"), ("thumbnail", JSValue.str "t.png")])
        "/ctx")] []
    (by decide) (by decide) rfl
  refine ⟨by decide, by decide, ?_⟩
  refine h.2.1 decC6b (List.mem_cons_of_mem _ (List.mem_cons_self _ _)) ?_
  intro hc
  have h2 : decC6a = decC6b := Option.some.inj hc
  exact absurd (congrArg Decorator.ref h2) (by decide)

/-- C1 (counterexample): a class `SampleComponent` with exactly one
well-formed `Metadata({name: 'Sample', thumbnail: 't.png'})` annotation
whose thumbnail exists.  Because the options record spreads the extracted
fields after the injected class name, the annotation's `name` key wins:
the artifact is `Sample.component.json` — not
`SampleComponent.component.json` — and its `name` field is `"Sample"`,
not the class identifier. -/
theorem metadata_name_key_overrides_class_name :
    processClass fsCtxOnly "/ctx" clsC1 =
      Except.ok (⟨some "SampleComponent", none, "classBody"⟩,
        [("Sample.component.json",
          mkOptions "SampleComponent"
            (JSValue.obj [("name", JSValue.str "Sample"), ("thumbnail", JSValue.str "t.png")])
            "/ctx")], []) ∧
    "Sample.component.json" ≠ "SampleComponent.component.json" ∧
    jsGet (mkOptions "SampleComponent"
      (JSValue.obj [("name", JSValue.str "Sample"), ("thumbnail", JSValue.str "t.png")])
      "/ctx") "name" = JSValue.str "Sample" ∧
    JSValue.str "Sample" ≠ JSValue.str "SampleComponent" := by
  refine ⟨rfl, by decide, rfl, fun h => ?_⟩
  injection h with h2
  exact absurd h2 (by decide)

/-- C1 (amended): for a class with exactly one Metadata-matching
decorator whose argument is an object literal and whose merged options
pass validation, the visitor emits exactly one artifact named
`<options.name>.component.json` with the options record as content, no
Metadata-matching decorator remains on the rewritten class, and
`options.name` is the extracted value of the object literal's last
`name` property when one is present, else the class identifier. -/
theorem single_annotation_one_artifact (fsExists : String → Bool)
    (context nm : String) (c : ClassDecl) (d : Decorator) (pl : PropList)
    (hid : c.id = some nm)
    (hone : (c.decorators.getD []).filter isMetadataDecorator = [d])
    (hargs : d.expression.callArgs.head? = some (Node.objectExpr pl))
    (hval : validateOptions fsExists
      (mkOptions nm (extractValue (Node.objectExpr pl)) context) nm = Except.ok (true, [])) :
    processClass fsExists context c =
      Except.ok (stripClass c d,
        [(jsToString (jsGet (mkOptions nm (extractValue (Node.objectExpr pl)) context) "name")
            ++ ".component.json",
          mkOptions nm (extractValue (Node.objectExpr pl)) context)], []) ∧
    ((stripClass c d).decorators.getD []).filter isMetadataDecorator = [] ∧
    getMetadata ((stripClass c d).decorators.getD []) = none ∧
    jsGet (mkOptions nm (extractValue (Node.objectExpr pl)) context) "name" =
      ((pl.toList.reverse.find? (fun p => p.1 == "name")).map
        (fun p => extractValue p.2)).getD (JSValue.str nm) := by
  have hhead : ((c.decorators.getD []).filter isMetadataDecorator).head? = some d := by
    rw [hone]; rfl
  have hmatch := getMetadata_of_head_arg _ _ _ hhead hargs
  have hstripm : ((stripClass c d).decorators.getD []).filter isMetadataDecorator = [] := by
    rw [stripClass_decorators_getD]; exact matches_after_strip _ _ hone
  refine ⟨?_, hstripm, getMetadata_of_no_match _ hstripm,
    jsGet_mkOptions_extract_name nm context pl⟩
  rw [processClass_of_match fsExists context c nm d (extractValue (Node.objectExpr pl))
    hid hmatch, hval]

/-- C1 (amended, witness): a single annotation without a `name` key — the
artifact takes the class identifier. -/
theorem single_annotation_one_artifact_witness :
    (clsC1w.decorators.getD []).filter isMetadataDecorator = [decC1w] ∧
    decC1w.expression.callArgs.head? =
      some (Node.objectExpr (PropList.ofList [("thumbnail", Node.stringLit "t.png")])) ∧
    validateOptions fsCtxOnly
      (mkOptions "Widget"
        (extractValue (Node.objectExpr (PropList.ofList [("thumbnail", Node.stringLit "t.png")])))
        "/ctx") "Widget" = Except.ok (true, []) ∧
    processClass fsCtxOnly "/ctx" clsC1w =
      Except.ok (stripClass clsC1w decC1w,
        [("Widget.component.json",
          mkOptions "Widget"
            (extractValue (Node.objectExpr (PropList.ofList
              [("thumbnail", Node.stringLit "t.png")])))
            "/ctx")], []) := by
  have h := single_annotation_one_artifact fsCtxOnly "/ctx" "Widget" clsC1w decC1w
    (PropList.ofList [("thumbnail", Node.stringLit "t.png")]) rfl rfl rfl rfl
  refine ⟨rfl, rfl, rfl, ?_⟩
  rw [h.1]
  rfl

theorem processClass_stable (fsExists : String → Bool) (context : String)
    (c c' : ClassDecl) (arts : List Artifact) (errs : List String)
    (hle : matchCount c ≤ 1)
    (hok : processClass fsExists context c = Except.ok (c', arts, errs)) :
    processClass fsExists context c' = Except.ok (c', [], []) := by
  obtain ⟨⟨nm, hid⟩, hcases⟩ := processClass_ok_cases fsExists context c c' arts errs hok
  cases hcases with
  | inl hl =>
    obtain ⟨hnone, hceq, _, _⟩ := hl
    rw [hceq]
    exact processClass_of_no_match fsExists context c nm hid hnone
  | inr hr =>
    obtain ⟨d, args, hsome, hstrip, _⟩ := hr
    obtain ⟨hhead, _⟩ := getMetadata_inv _ _ _ hsome
    have hmatches : (c.decorators.getD []).filter isMetadataDecorator = [d] := by
      unfold matchCount at hle
      cases hf : (c.decorators.getD []).filter isMetadataDecorator with
      | nil => rw [hf] at hhead; cases hhead
      | cons a l =>
        rw [hf] at hhead hle
        have ha : a = d := by
          simp only [List.head?, Option.some.injEq] at hhead
          exact hhead
        cases l with
        | nil => rw [ha]
        | cons b bs => simp at hle
    subst hstrip
    have hnone2 : getMetadata ((stripClass c d).decorators.getD []) = none := by
      apply getMetadata_of_no_match
      rw [stripClass_decorators_getD]
      exact matches_after_strip _ _ hmatches
    exact processClass_of_no_match fsExists context (stripClass c d) nm
      (by rw [stripClass_id]; exact hid) hnone2

/-- C8 (amended): running the loader again on its own completed output is
a no-op — same program back, no artifacts, no errors — provided every
class of the original file carried at most one Metadata-matching
decorator (with more, the first run leaves the later matches in its
output and a second run processes them). -/
theorem transform_idempotent_on_single_match (fsExists : String → Bool)
    (context : String) (prog out : List TopLevel)
    (arts : List Artifact) (errs : List String)
    (hok : transformProgram fsExists context prog = Except.ok (out, arts, errs))
    (hle : ∀ cc : ClassDecl, TopLevel.classDecl cc ∈ prog → matchCount cc ≤ 1) :
    transformProgram fsExists context out = Except.ok (out, [], []) := by
  induction prog generalizing out arts errs with
  | nil =>
    have hnil : transformProgram fsExists context ([] : List TopLevel) =
      Except.ok ([], [], []) := rfl
    rw [hnil] at hok
    simp only [Except.ok.injEq, Prod.mk.injEq] at hok
    rw [← hok.1]
    exact hnil
  | cons t rest ih =>
    cases t with
    | other s =>
      cases hr : transformProgram fsExists context rest with
      | error e =>
        rw [transformProgram_cons_other, hr] at hok
        cases hok
      | ok r =>
        obtain ⟨items, arts2, errs2⟩ := r
        rw [transformProgram_cons_other, hr] at hok
        simp only [Except.ok.injEq, Prod.mk.injEq] at hok
        obtain ⟨h1, _, _⟩ := hok
        subst h1
        have hstable := ih items arts2 errs2 hr
          (fun cc hm => hle cc (List.mem_cons_of_mem _ hm))
        rw [transformProgram_cons_other, hstable]
    | classDecl c =>
      cases hp : processClass fsExists context c with
      | error e =>
        rw [transformProgram_cons_class_error fsExists context c rest e hp] at hok
        cases hok
      | ok r =>
        obtain ⟨c', artsc, errsc⟩ := r
        rw [transformProgram_cons_class_ok fsExists context c rest c' artsc errsc hp] at hok
        cases hr : transformProgram fsExists context rest with
        | error e => rw [hr] at hok; cases hok
        | ok r2 =>
          obtain ⟨items, arts2, errs2⟩ := r2
          rw [hr] at hok
          simp only [Except.ok.injEq, Prod.mk.injEq] at hok
          obtain ⟨h1, _, _⟩ := hok
          subst h1
          have hc1 : matchCount c ≤ 1 := hle c (List.mem_cons_self _ _)
          have hps := processClass_stable fsExists context c c' artsc errsc hc1 hp
          have hstable := ih items arts2 errs2 hr
            (fun cc hm => hle cc (List.mem_cons_of_mem _ hm))
          rw [transformProgram_cons_class_ok fsExists context c' items c' [] [] hps, hstable]
          simp

/-- C8 (counterexample): a class carrying two Metadata decorators.  The
first run strips only the first one, so running the loader again on its
own output emits another artifact and rewrites the text further — the
second run is not a no-op on this source. -/
theorem transform_not_idempotent_on_multi_match :
    transformProgram fsCtxOnly "/ctx" [TopLevel.classDecl clsC8] =
      Except.ok ([TopLevel.classDecl clsC8mid], [artC8a], []) ∧
    transformProgram fsCtxOnly "/ctx" [TopLevel.classDecl clsC8mid] =
      Except.ok ([TopLevel.classDecl clsC8end], [artC8b], []) ∧
    ([artC8b] ≠ ([] : List Artifact)) ∧
    TopLevel.classDecl clsC8end ≠ TopLevel.classDecl clsC8mid := by
  refine ⟨rfl, rfl, by simp, fun h => ?_⟩
  injection h with h2
  have h3 := congrArg ClassDecl.decorators h2
  rw [show ClassDecl.decorators clsC8end = none from rfl,
    show ClassDecl.decorators clsC8mid = some [decC8b] from rfl] at h3
  cases h3

/-- C8 (amended, witness): a file with one single-annotation class and one
non-class item — the second run on the produced output is a no-op. -/
theorem transform_idempotent_on_single_match_witness :
    transformProgram fsCtxOnly "/ctx"
        [TopLevel.classDecl clsC8w, TopLevel.other "export default 1;"] =
      Except.ok (progC8wOut,
        [("Tile.component.json",
          mkOptions "Tile"
            (extractValue (Node.objectExpr (PropList.ofList
              [("thumbnail", Node.stringLit "t.png")])))
            "/ctx")], []) ∧
    transformProgram fsCtxOnly "/ctx" progC8wOut = Except.ok (progC8wOut, [], []) := by
  refine ⟨rfl, ?_⟩
  refine transform_idempotent_on_single_match fsCtxOnly "/ctx"
    [TopLevel.classDecl clsC8w, TopLevel.other "export default 1;"] progC8wOut
    [("Tile.component.json",
      mkOptions "Tile"
        (extractValue (Node.objectExpr (PropList.ofList
          [("thumbnail", Node.stringLit "t.png")])))
        "/ctx")] [] rfl ?_
  intro cc hm
  rcases List.mem_cons.mp hm with h | h
  · injection h with h2
    rw [h2]
    decide
  · rcases List.mem_cons.mp h with h2 | h2
    · cases h2
    · cases h2
